import Mathlib

/-!
Verification development for the go-quai header chain engine
(src/core/headerchain.go) and the header JSON codec
(src/core/types/gen_header_json.go).

Modelling conventions:
* Hashes, addresses, blooms and bytes are modelled as natural numbers;
  Go byte slices become `List Nat`.
* A Go pointer type `*T` and a nil-able Go slice `[]T` are modelled as
  `Option _` where `none` stands for Go `nil`.
* `*big.Int` fields become `Option Int` (a nil pointer is `none`).
* A Go function that can panic or loop forever is modelled with result
  type `Option _` (or with an explicit fuel argument); `none` stands for
  abnormal non-returning behaviour (panic or divergence).
-/

set_option autoImplicit false

/-- Model of go-quai `types.Header` (the type itself is declared outside the
given sources; its fields and accessors are modelled from their uses in
src/core/headerchain.go and src/core/types/gen_header_json.go and from the
spec data model, section 3).  The derived keccak hash of the header is
modelled as the stored identity field `hash` (spec: the hash is the header
identity everywhere in the engine); `Header.UnmarshalJSON` leaves it unset. -/
structure Header where
  parentHash : List Nat := []
  uncleHash : List Nat := []
  coinbase : List Nat := []
  root : List Nat := []
  txHash : List Nat := []
  receiptHash : List Nat := []
  etxHash : List Nat := []
  manifestHash : List Nat := []
  bloom : List Nat := []
  difficulty : List (Option Int) := []
  number : List (Option Int) := []
  gasLimit : List Nat := []
  gasUsed : List Nat := []
  baseFee : List (Option Int) := []
  location : List Nat := []
  time : Nat := 0
  extra : List Nat := []
  nonce : Nat := 0
  hash : Nat := 0
  deriving DecidableEq

/-- Modelled from the spec: `common.HierarchyDepth` (the hierarchy depth D,
spec section 6 configuration); the concrete scenarios of spec section 8 fix
D = 3, which is also the value hard-coded in `GetTd` in the source. -/
def HierarchyDepth : Nat := 3

/-- Modelled from the spec: `types.QuaiNetworkContext` (the network context
tier c with 0 <= c < D, spec section 6); the spec scenarios fix c = 2. -/
def QuaiNetworkContext : Nat := 2

/-- Model of `types.Header.Number64()`: `h.Number[QuaiNetworkContext].Uint64()`.
Go panics on a nil pointer or a short slice; the engine only calls this on
well-formed headers (spec invariant H1), so the model totalises with 0. -/
def Header.number64 (h : Header) : Nat :=
  ((h.number.getD QuaiNetworkContext none).getD 0).toNat

/-- Model of `types.Header.Parent()`: `h.ParentHash[QuaiNetworkContext]`
(totalised with 0 on a short slice, which would panic in Go). -/
def Header.parent (h : Header) : Nat :=
  h.parentHash.getD QuaiNetworkContext 0

/-- The struct literal built by `Header.MarshalJSON`
(src/core/types/gen_header_json.go lines 17-68), after all its field
assignments.  Field values model the JSON document: `none` in an outer
position is a Go nil slice and is emitted as JSON null. -/
structure encHeaderJSON where
  parentHash : Option (List Nat)
  uncleHash : Option (List Nat)
  coinbase : Option (List Nat)
  root : Option (List Nat)
  txHash : Option (List Nat)
  etxHash : Option (List Nat)
  manifestHash : Option (List Nat)
  receiptHash : Option (List Nat)
  bloom : Option (List Nat)
  difficulty : Option (List (Option Int))
  number : Option (List (Option Int))
  gasLimit : Option (List Nat)
  gasUsed : Option (List Nat)
  baseFee : Option (List (Option Int))
  location : Option (List Nat)
  time : Nat
  extra : Option (List Nat)
  nonce : Nat
  hash : Nat
  deriving DecidableEq

/-- Model of Go `copy(dst, src)` for slices, returning the destination:
exactly `min (len dst) (len src)` elements are copied into the front of
`dst`; copying into a nil slice copies nothing and leaves it nil. -/
def goCopy {α : Type} (dst : Option (List α)) (src : List α) : Option (List α) :=
  match dst with
  | none => none
  | some d => some ((src.take (min src.length d.length)) ++ d.drop (min src.length d.length))

/-- Model of `Header.MarshalJSON` (gen_header_json.go lines 17-68).  Only the
five fields `Difficulty, Number, GasLimit, GasUsed, BaseFee` are initialised
with `make(..., common.HierarchyDepth)`; the nine hash/address/bloom arrays
are left as nil slices, and the subsequent `copy` calls into them copy
nothing.  The per-tier accessors `h.Difficulty(i)` etc. (defined outside the
given sources) return element i of the corresponding field. -/
def Header.MarshalJSON (h : Header) : encHeaderJSON :=
  { parentHash := goCopy none h.parentHash
    uncleHash := goCopy none h.uncleHash
    coinbase := goCopy none h.coinbase
    root := goCopy none h.root
    txHash := goCopy none h.txHash
    etxHash := goCopy none h.etxHash
    manifestHash := goCopy none h.manifestHash
    receiptHash := goCopy none h.receiptHash
    bloom := goCopy none h.bloom
    difficulty := some ((List.range HierarchyDepth).map (fun i => (h.difficulty.get? i).getD none))
    number := some ((List.range HierarchyDepth).map (fun i => (h.number.get? i).getD none))
    gasLimit := some ((List.range HierarchyDepth).map (fun i => (h.gasLimit.get? i).getD 0))
    gasUsed := some ((List.range HierarchyDepth).map (fun i => (h.gasUsed.get? i).getD 0))
    baseFee := some ((List.range HierarchyDepth).map (fun i => (h.baseFee.get? i).getD none))
    location := some h.location
    time := h.time
    extra := some h.extra
    nonce := h.nonce
    hash := h.hash }

/-- The struct filled by `json.Unmarshal` inside `Header.UnmarshalJSON`
(gen_header_json.go lines 72-91): every slice-typed field is nil (`none`)
when the JSON key is absent or null; `Time` and `Nonce` are plain values
that default to 0 when absent. -/
structure decHeaderJSON where
  parentHash : Option (List Nat) := none
  uncleHash : Option (List Nat) := none
  coinbase : Option (List Nat) := none
  root : Option (List Nat) := none
  txHash : Option (List Nat) := none
  receiptHash : Option (List Nat) := none
  etxHash : Option (List Nat) := none
  manifestHash : Option (List Nat) := none
  bloom : Option (List Nat) := none
  difficulty : Option (List (Option Int)) := none
  number : Option (List (Option Int)) := none
  gasLimit : Option (List Nat) := none
  gasUsed : Option (List Nat) := none
  baseFee : Option (List (Option Int)) := none
  location : Option (List Nat) := none
  time : Nat := 0
  extra : Option (List Nat) := none
  nonce : Nat := 0
  deriving DecidableEq

/-- Model of the JSON transport from an encoded header to the decoder struct:
`MarshalJSON` emits every key of its struct (no omitempty), field names and
element encodings coincide with the decoder struct, and the decoder ignores
the extra `hash` key.  So `json.Unmarshal(json.Marshal(enc))` fills `dec`
with exactly the non-hash fields of `enc`. -/
def encToDec (e : encHeaderJSON) : decHeaderJSON :=
  { parentHash := e.parentHash
    uncleHash := e.uncleHash
    coinbase := e.coinbase
    root := e.root
    txHash := e.txHash
    receiptHash := e.receiptHash
    etxHash := e.etxHash
    manifestHash := e.manifestHash
    bloom := e.bloom
    difficulty := e.difficulty
    number := e.number
    gasLimit := e.gasLimit
    gasUsed := e.gasUsed
    baseFee := e.baseFee
    location := e.location
    time := e.time
    extra := e.extra
    nonce := e.nonce }

/-- The sequence of top-level required-field checks of `Header.UnmarshalJSON`
(gen_header_json.go lines 95-142), in source order, returning the first
error message.  The Go messages quote the JSON field name in single quotes;
the quotes are omitted here.  Note: there is no check for `location`, the
`baseFee` check names the field baseFee (not baseFeePerGas), and the
`timestamp` check tests the decoded value against 0 rather than nil-ness. -/
def topCheck (d : decHeaderJSON) : Option String :=
  if d.parentHash.isNone then some ("missing required field parentHash for Header")
  else if d.uncleHash.isNone then some ("missing required field sha3Uncles for Header")
  else if d.coinbase.isNone then some ("missing required field miner for Header")
  else if d.root.isNone then some ("missing required field stateRoot for Header")
  else if d.txHash.isNone then some ("missing required field transactionsRoot for Header")
  else if d.etxHash.isNone then some ("missing required field extTransactionsRoot for Header")
  else if d.manifestHash.isNone then some ("missing required field manifestHash for Header")
  else if d.receiptHash.isNone then some ("missing required field receiptsRoot for Header")
  else if d.bloom.isNone then some ("missing required field logsBloom for Header")
  else if d.difficulty.isNone then some ("missing required field difficulty for Header")
  else if d.number.isNone then some ("missing required field number for Header")
  else if d.gasLimit.isNone then some ("missing required field gasLimit for Header")
  else if d.gasUsed.isNone then some ("missing required field gasUsed for Header")
  else if d.baseFee.isNone then some ("missing required field baseFee for Header")
  else if d.time = 0 then some ("missing required field timestamp for Header")
  else if d.extra.isNone then some ("missing required field extraData for Header")
  else none

/-- Truth of `i < len l` for an optional slice (Go indexing `l[i]` panics
exactly when this is false). -/
def idxOk {α : Type} (o : Option (List α)) (i : Nat) : Bool :=
  i < (o.getD []).length

/-- One iteration (index i) of the initialisation loop of
`Header.UnmarshalJSON` (gen_header_json.go lines 159-183): the slice
accesses happen in source order, so an out-of-range index is a panic
(`none`), a nil element of difficulty, number or baseFee is a returned
error, and otherwise the iteration succeeds. -/
def checkAt (d : decHeaderJSON) (i : Nat) : Option (Except String Unit) :=
  if idxOk d.parentHash i && idxOk d.uncleHash i && idxOk d.coinbase i &&
     idxOk d.root i && idxOk d.txHash i && idxOk d.receiptHash i &&
     idxOk d.etxHash i && idxOk d.manifestHash i && idxOk d.bloom i &&
     idxOk d.difficulty i then
    match (d.difficulty.getD []).get? i with
    | some none => some (Except.error ("missing required field difficulty for Header"))
    | _ =>
      if idxOk d.number i then
        match (d.number.getD []).get? i with
        | some none => some (Except.error ("missing required field number for Header"))
        | _ =>
          if idxOk d.gasLimit i && idxOk d.gasUsed i && idxOk d.baseFee i then
            match (d.baseFee.getD []).get? i with
            | some none => some (Except.error ("missing required field baseFeePerGas for Header"))
            | _ => some (Except.ok ())
          else none
      else none
  else none

/-- The initialisation loop of `Header.UnmarshalJSON` run from index `i`
for `k` more iterations, stopping at the first panic or error. -/
def loopCheckFrom (d : decHeaderJSON) (i : Nat) : Nat → Option (Except String Unit)
  | 0 => some (Except.ok ())
  | k + 1 =>
    match checkAt d i with
    | some (Except.ok ()) => loopCheckFrom d (i + 1) k
    | r => r

/-- The header built by the setter calls of `Header.UnmarshalJSON` once all
checks have passed: each per-tier field receives the first
`HierarchyDepth` decoded elements, and the shared fields are assigned
directly (`SetLocation(dec.Location)` stores a possibly-nil slice,
modelled as the empty list). -/
def buildHeader (d : decHeaderJSON) : Header :=
  { parentHash := (d.parentHash.getD []).take HierarchyDepth
    uncleHash := (d.uncleHash.getD []).take HierarchyDepth
    coinbase := (d.coinbase.getD []).take HierarchyDepth
    root := (d.root.getD []).take HierarchyDepth
    txHash := (d.txHash.getD []).take HierarchyDepth
    receiptHash := (d.receiptHash.getD []).take HierarchyDepth
    etxHash := (d.etxHash.getD []).take HierarchyDepth
    manifestHash := (d.manifestHash.getD []).take HierarchyDepth
    bloom := (d.bloom.getD []).take HierarchyDepth
    difficulty := (d.difficulty.getD []).take HierarchyDepth
    number := (d.number.getD []).take HierarchyDepth
    gasLimit := (d.gasLimit.getD []).take HierarchyDepth
    gasUsed := (d.gasUsed.getD []).take HierarchyDepth
    baseFee := (d.baseFee.getD []).take HierarchyDepth
    location := d.location.getD []
    time := d.time
    extra := d.extra.getD []
    nonce := d.nonce
    hash := 0 }

/-- Model of `Header.UnmarshalJSON` (gen_header_json.go lines 71-189) applied
to an already-parsed JSON object: the top-level required-field checks run
in order, then the per-tier initialisation loop; `none` is a panic. -/
def Header.UnmarshalJSON (d : decHeaderJSON) : Option (Except String Header) :=
  match topCheck d with
  | some e => some (Except.error e)
  | none =>
    match loopCheckFrom d 0 HierarchyDepth with
    | none => none
    | some (Except.error e) => some (Except.error e)
    | some (Except.ok ()) => some (Except.ok (buildHeader d))

/-- Association-list lookup keyed by decidable equality (first match wins),
modelling a point read from the key-value store or an LRU cache. -/
def alookup {κ β : Type} [DecidableEq κ] (k : κ) : List (κ × β) → Option β
  | [] => none
  | (k1, v) :: t => if k = k1 then some v else alookup k t

/-- Removal of every entry with the given key, modelling a key-value delete. -/
def aremove {κ β : Type} [DecidableEq κ] (k : κ) : List (κ × β) → List (κ × β)
  | [] => []
  | (k1, v) :: t => if k = k1 then aremove k t else (k1, v) :: aremove k t

/-- The database plus the three LRU caches of `HeaderChain`
(src/core/headerchain.go lines 69-91).  The source refers to the same
database handle as `hc.headerDb` and `hc.chainDb`; it is one store here.
The external LRU caches are modelled as unbounded maps: spec section 3
states that evicting a cache entry must not affect correctness. -/
structure DB where
  storeHeaders : List ((Nat × Nat) × Header) := []
  storeNumbers : List (Nat × Nat) := []
  storeCanonical : List (Nat × Nat) := []
  storeTds : List ((Nat × Nat) × List (Option Int)) := []
  headerCache : List (Nat × Header) := []
  numberCache : List (Nat × Nat) := []
  tdCache : List (Nat × List (Option Int)) := []
  deriving DecidableEq

/-- Modelled from the spec: `rawdb.WriteHeader` (store facade, spec section
4.2) writes the header record keyed by (hash, number at tier c) and the
hash-to-number mapping; spec invariant I1 and section 8 invariant 1 require
the number mapping to be written together with the header. -/
def rawdbWriteHeader (db : DB) (h : Header) : DB :=
  { db with
    storeHeaders := ((h.hash, h.number64), h) :: db.storeHeaders
    storeNumbers := (h.hash, h.number64) :: db.storeNumbers }

/-- Modelled from the spec: `rawdb.ReadHeader` (spec section 4.2), a point
read keyed by hash and number. -/
def rawdbReadHeader (db : DB) (hash number : Nat) : Option Header :=
  alookup (hash, number) db.storeHeaders

/-- Modelled from the spec: `rawdb.DeleteHeader` (spec section 4.2,
unconditional delete): removes the header record and the hash-to-number
mapping, so that the store is as if the header had never been written
(spec scenario S5). -/
def rawdbDeleteHeader (db : DB) (hash number : Nat) : DB :=
  { db with
    storeHeaders := aremove (hash, number) db.storeHeaders
    storeNumbers := aremove hash db.storeNumbers }

/-- Modelled from the spec: `rawdb.ReadHeaderNumber` (spec section 4.2). -/
def rawdbReadHeaderNumber (db : DB) (hash : Nat) : Option Nat :=
  alookup hash db.storeNumbers

/-- Modelled from the spec: `rawdb.ReadCanonicalHash` (spec section 4.2);
returns the zero hash (`common.Hash\x7b\x7d`, modelled 0) when absent. -/
def rawdbReadCanonicalHash (db : DB) (number : Nat) : Nat :=
  (alookup number db.storeCanonical).getD 0

/-- Modelled from the spec: `rawdb.ReadTd` (spec section 4.2). -/
def rawdbReadTd (db : DB) (hash number : Nat) : Option (List (Option Int)) :=
  alookup (hash, number) db.storeTds

/-- Model of Go uint64 decrement `n - 1` with wraparound. -/
def u64sub1 (n : Nat) : Nat :=
  (n + (2 ^ 64 - 1)) % 2 ^ 64

/-- Model of `HeaderChain.GetBlockNumber` (headerchain.go lines 261-271):
number-cache first, then store, populating the cache on a hit. -/
def GetBlockNumber (db : DB) (hash : Nat) : Option Nat × DB :=
  match alookup hash db.numberCache with
  | some n => (some n, db)
  | none =>
    match rawdbReadHeaderNumber db hash with
    | some n => (some n, { db with numberCache := (hash, n) :: db.numberCache })
    | none => (none, db)

/-- Model of `HeaderChain.GetHeader` (headerchain.go lines 383-395):
header-cache first (keyed by hash only), then store by (hash, number),
populating the cache on a hit. -/
def GetHeader (db : DB) (hash number : Nat) : Option Header × DB :=
  match alookup hash db.headerCache with
  | some h => (some h, db)
  | none =>
    match rawdbReadHeader db hash number with
    | none => (none, db)
    | some h => (some h, { db with headerCache := (hash, h) :: db.headerCache })

/-- Model of `HeaderChain.GetHeaderByHash` (headerchain.go lines 399-405). -/
def GetHeaderByHash (db : DB) (hash : Nat) : Option Header × DB :=
  match GetBlockNumber db hash with
  | (none, db1) => (none, db1)
  | (some n, db1) => GetHeader db1 hash n

/-- Model of `HeaderChain.GetTd` (headerchain.go lines 357-369): td-cache
first, then store; on a store miss returns `make([]*big.Int, 3)`, a
length-3 slice of nil pointers. -/
def GetTd (db : DB) (hash number : Nat) : List (Option Int) × DB :=
  match alookup hash db.tdCache with
  | some td => (td, db)
  | none =>
    match rawdbReadTd db hash number with
    | none => (List.replicate 3 none, db)
    | some td => (td, { db with tdCache := (hash, td) :: db.tdCache })

/-- Model of `HeaderChain.GetTdByHash` (headerchain.go lines 373-379):
returns `make([]*big.Int, 3)` when the number of the hash is unknown. -/
def GetTdByHash (db : DB) (hash : Nat) : List (Option Int) × DB :=
  match GetBlockNumber db hash with
  | (none, db1) => (List.replicate 3 none, db1)
  | (some n, db1) => GetTd db1 hash n

/-- The collection loop of `GetBlockHashesFromHash` (headerchain.go lines
283-292), iterating at most the remaining count of times: append the
parent hash if its header is found, stop on a missing parent or after
appending a genesis (number 0) header. -/
def ghfhLoop (db : DB) (h : Header) (chain : List Nat) : Nat → List Nat × DB
  | 0 => (chain, db)
  | k + 1 =>
    match GetHeader db h.parent (u64sub1 h.number64) with
    | (none, db1) => (chain, db1)
    | (some h1, db1) =>
      if h1.number64 = 0 then (chain ++ [h.parent], db1)
      else ghfhLoop db1 h1 (chain ++ [h.parent]) k

/-- Model of `HeaderChain.GetBlockHashesFromHash` (headerchain.go lines
275-294). -/
def GetBlockHashesFromHash (db : DB) (hash : Nat) (max : Nat) : List Nat × DB :=
  match GetHeaderByHash db hash with
  | (none, db1) => ([], db1)
  | (some h, db1) => ghfhLoop db1 h [] max

/-- Model of `HeaderChain.GetAncestorByLocation` (headerchain.go lines
338-353), faithful to the source: when the starting header IS found the
guard `header != nil` returns the error, and when it is not found the
loop condition dereferences the nil header, a panic (`none`).  The loop
body is therefore unreachable. -/
def GetAncestorByLocation (db : DB) (hash : Nat) (location : List Nat) :
    Option (Except String Header × DB) :=
  match GetHeaderByHash db hash with
  | (some _, db1) => some (Except.error ("error finding header by hash"), db1)
  | (none, _) => none

/-- Model of `HeaderChain.trim` (headerchain.go lines 192-212), with fuel for
the unbounded walk: delete the walked header and step to its parent until
the common header is reached; a missing parent ends the walk successfully
with a warning.  (`hc.bc.Trim` only touches executor state outside this
model.) -/
def trim (db : DB) (commonH : Header) : Header → Nat → Option (Except String Unit × DB)
  | _, 0 => none
  | parent, k + 1 =>
    if parent.hash = commonH.hash then some (Except.ok (), db)
    else
      let db1 := rawdbDeleteHeader db parent.hash parent.number64
      match GetHeader db1 parent.parent (u64sub1 parent.number64) with
      | (none, db2) => some (Except.ok (), db2)
      | (some p, db2) => trim db2 commonH p k

/-- The height-equalisation loop of `trimBranch` (headerchain.go lines
219-224): walk the new tip back until its number equals the old tip
number.  The fetched parent is assigned without a nil check; if it is nil
the next loop iteration dereferences it, a panic (`none`). -/
def tbEqualize (db : DB) : Header → Nat → Nat → Option (Header × DB)
  | _, _, 0 => none
  | newH, startIndex, k + 1 =>
    if newH.number64 = startIndex then some (newH, db)
    else
      match GetHeader db (newH.parentHash.getD QuaiNetworkContext 0) (u64sub1 newH.number64) with
      | (none, _) => none
      | (some h, db1) => tbEqualize db1 h startIndex k

/-- The lockstep common-ancestor loop of `trimBranch` (headerchain.go lines
230-248), faithful to the source: the fetched parents are bound to
freshly declared (shadowed) variables `oldHeader` and `newBlock`, so the
loop variables never advance; the loop exits only if the two tips already
have the same hash (then `commonHeader` is the old tip itself) or when a
parent is missing (an invalid-chain error). -/
def tbLockstep : DB → Header → Header → Nat → Option (Except String Header × DB)
  | _, _, _, 0 => none
  | db, oldH, newH, k + 1 =>
    if oldH.hash = newH.hash then some (Except.ok oldH, db)
    else
      match GetHeader db oldH.parent (u64sub1 oldH.number64) with
      | (none, db1) => some (Except.error ("invalid old chain"), db1)
      | (some _, db1) =>
        match GetHeader db1 newH.parent (u64sub1 newH.number64) with
        | (none, db2) => some (Except.error ("invalid new chain"), db2)
        | (some _, db2) => tbLockstep db2 oldH newH k

/-- Model of `HeaderChain.trimBranch` (headerchain.go lines 215-252):
equalise heights, find the common ancestor in lockstep, then trim from
the old tip (the saved `startHeader`) down to it. -/
def trimBranch (db : DB) (oldH newH : Header) (fuel : Nat) :
    Option (Except String Unit × DB) :=
  match tbEqualize db newH oldH.number64 fuel with
  | none => none
  | some (newH1, db1) =>
    match tbLockstep db1 oldH newH1 fuel with
    | none => none
    | some (Except.error e, db2) => some (Except.error e, db2)
    | some (Except.ok commonH, db2) => trim db2 commonH oldH fuel

/-- The header chain engine state: the database-plus-caches and the heads
queue of fork tips (headerchain.go line 90).  A freshly constructed
engine has an empty queue. -/
structure HC where
  db : DB := {}
  heads : List Header := []
  deriving DecidableEq

/-- Stable ascending insertion by number at the network context tier, used
to model the re-sort of the heads queue at headerchain.go lines 176-178.
Modelled from the spec: the source comparator references the
out-of-scope identifier `bc.heads` (spec section 9, note 3, records the
slip); the intended order is ascending by number at tier c, stably. -/
def orderedInsertByNumber (a : Header) : List Header → List Header
  | [] => [a]
  | b :: l =>
    if b.number64 ≤ a.number64 then b :: orderedInsertByNumber a l
    else a :: b :: l

/-- Stable insertion sort of the heads queue by number at tier c. -/
def headsSort : List Header → List Header
  | [] => []
  | a :: l => orderedInsertByNumber a (headsSort l)

/-- Model of `HeaderChain.Append` (headerchain.go lines 140-181).  A block is
modelled by its header (only `block.Header()` is used).  The batched
header write always commits in the pure store model; `hc.bc.Append` (the
external block executor) is the parameter `exec`.  On executor failure
the just-written header is deleted and the error returned.  On a full
queue the oldest branch is trimmed (with the given fuel) before the
oldest tip is dequeued; `heads[0]` on an empty queue (possible only when
the configured limit M is 0) is a Go panic, `none`. -/
def HC.Append (hc : HC) (M : Nat) (exec : Header → Except String Unit) (b : Header)
    (fuel : Nat) : Option (Except String Unit × HC) :=
  let db1 := rawdbWriteHeader hc.db b
  match exec b with
  | Except.error e =>
    some (Except.error e, { hc with db := rawdbDeleteHeader db1 b.hash b.number64 })
  | Except.ok () =>
    if hc.heads.length = M then
      match hc.heads with
      | [] => none
      | h0 :: rest =>
        match trimBranch db1 h0 ((h0 :: rest).getD (M - 1) h0) fuel with
        | none => none
        | some (Except.error e, db2) => some (Except.error e, { hc with db := db2 })
        | some (Except.ok (), db2) =>
          some (Except.ok (), { db := db2, heads := headsSort (rest ++ [b]) })
    else
      some (Except.ok (), { db := db1, heads := headsSort (hc.heads ++ [b]) })

/-- The engine states reachable from a freshly constructed engine (empty
heads queue over any database) by successful `Append` operations. -/
inductive AppendReachable (M : Nat) (exec : Header → Except String Unit) : HC → Prop
  | fresh (db : DB) : AppendReachable M exec { db := db, heads := [] }
  | step (hc : HC) (b : Header) (fuel : Nat) (hc1 : HC) :
      AppendReachable M exec hc →
      HC.Append hc M exec b fuel = some (Except.ok (), hc1) →
      AppendReachable M exec hc1

/-- Modelled from the spec: `params.FullerOntology`, the region and zone
bounds of the hierarchy (spec section 6: regionMax, zoneMax); the values
are left to configuration, 3 and 3 are used as representative positive
bounds. -/
def FullerOntology : List Nat := [3, 3]

/-- Model of `HeaderChain.CheckLocationRange` (headerchain.go lines 475-483),
faithful to Go evaluation order: `location[0]` is indexed before any
length test (out of range is a panic, `none`); `location[1]` is indexed
only if the first byte passes the region range test. -/
def CheckLocationRange (location : List Nat) : Option (Except String Unit) :=
  match location.get? 0 with
  | none => none
  | some r =>
    if r < 1 ∨ FullerOntology.getD 0 0 < r then
      some (Except.error ("the provided location is outside the allowable region range"))
    else
      match location.get? 1 with
      | none => none
      | some z =>
        if z < 1 ∨ FullerOntology.getD 1 0 < z then
          some (Except.error ("the provided location is outside the allowable zone range"))
        else some (Except.ok ())

/-- Concrete genesis header for the trimBranch fork scenario. -/
def hGen : Header :=
  { hash := 1, parentHash := [0, 0, 0], number := [some 0, some 0, some 0] }

/-- Concrete header at number 1, child of the genesis. -/
def hAnc : Header :=
  { hash := 2, parentHash := [0, 0, 1], number := [some 0, some 0, some 1] }

/-- Concrete old fork tip at number 2, child of `hAnc`. -/
def hOld : Header :=
  { hash := 3, parentHash := [0, 0, 2], number := [some 0, some 0, some 2] }

/-- Concrete new fork tip at number 2, also a child of `hAnc`. -/
def hNew : Header :=
  { hash := 4, parentHash := [0, 0, 2], number := [some 0, some 0, some 2] }

/-- A store holding the fork: genesis, the common ancestor `hAnc`, and the
two competing tips `hOld` and `hNew`, all persisted with their number
mappings; the caches are empty. -/
def dbFork : DB :=
  { storeHeaders := [((1, 0), hGen), ((2, 1), hAnc), ((3, 2), hOld), ((4, 2), hNew)]
    storeNumbers := [(1, 0), (2, 1), (3, 2), (4, 2)] }

/-- The fork store after the lockstep loop has cached the common ancestor. -/
def dbForkC : DB :=
  { dbFork with headerCache := [(2, hAnc)] }

/-- Concrete header used for the `GetAncestorByLocation` scenario: present
in the store with location (1, 1). -/
def hLoc : Header :=
  { hash := 5, parentHash := [0, 0, 0], number := [some 0, some 0, some 0],
    location := [1, 1] }

/-- A store holding only `hLoc` (with its number mapping); caches empty. -/
def dbLoc : DB :=
  { storeHeaders := [((5, 0), hLoc)], storeNumbers := [(5, 0)] }

/-- Concrete block header used in the compensating-delete witness. -/
def bEx : Header :=
  { hash := 9, parentHash := [0, 0, 1], number := [some 0, some 0, some 1] }

/-- Membership of a header in the engine state for a hash: it is in the
header cache or in the store under some number. -/
def hdrIn (db : DB) (x : Nat) (hd : Header) : Prop :=
  alookup x db.headerCache = some hd ∨ ∃ n, alookup (x, n) db.storeHeaders = some hd

/-- Parent-linkage of a hash list returned by `GetBlockHashesFromHash`,
walking back from the header `h0`: each returned hash is the tier-c
parent hash of the previous header, its own header is present in the
state, and only the last returned header may be the genesis (number 0). -/
def Chained (db : DB) : Header → List Nat → Prop
  | _, [] => True
  | h0, x :: rest =>
    x = h0.parent ∧
    ∃ hd, hdrIn db x hd ∧ (rest = [] ∨ hd.number64 ≠ 0) ∧ Chained db hd rest

/-- Property of the LAST hash of a nonempty returned list: its header is the
genesis (number 0) or the fetch of its parent fails in the final state. -/
def lastCause (db : DB) : List Nat → Prop
  | [] => True
  | [x] =>
    ∃ hd, hdrIn db x hd ∧
      (hd.number64 = 0 ∨ (GetHeader db hd.parent (u64sub1 hd.number64)).1 = none)
  | _ :: y :: ys => lastCause db (y :: ys)

/-- Why a `GetBlockHashesFromHash` walk ended before exhausting `max`: the
very first parent fetch failed (empty result), or the last returned
header is the genesis or its parent fetch fails in the final state. -/
def TermCause (db : DB) (h0 : Header) (r : List Nat) : Prop :=
  match r with
  | [] => (GetHeader db h0.parent (u64sub1 h0.number64)).1 = none
  | x :: rest => lastCause db (x :: rest)

/-- A decoded JSON header object with every listed field present and valid
(all per-tier arrays of length 3, all pointer elements non-nil, nonzero
timestamp). -/
def decAllPresent : decHeaderJSON :=
  { parentHash := some [0, 0, 0], uncleHash := some [0, 0, 0], coinbase := some [0, 0, 0],
    root := some [0, 0, 0], txHash := some [0, 0, 0], receiptHash := some [0, 0, 0],
    etxHash := some [0, 0, 0], manifestHash := some [0, 0, 0], bloom := some [0, 0, 0],
    difficulty := some [some 1, some 1, some 1], number := some [some 0, some 1, some 2],
    gasLimit := some [0, 0, 0], gasUsed := some [0, 0, 0],
    baseFee := some [some 1, some 1, some 1], location := some [1, 1],
    time := 7, extra := some [], nonce := 0 }

/-- The same object with the `location` field absent. -/
def decLocAbsent : decHeaderJSON :=
  { decAllPresent with location := none }

/-- The same object with `timestamp` present and equal to 0. -/
def decTimeZero : decHeaderJSON :=
  { decAllPresent with time := 0 }

theorem alookup_aremove_self {κ β : Type} [DecidableEq κ] (k : κ) (l : List (κ × β)) :
    alookup k (aremove k l) = none := by
  induction l with
  | nil => rfl
  | cons p t ih =>
    obtain ⟨k1, v⟩ := p
    by_cases hk : k = k1
    · simpa [aremove, hk] using ih
    · simpa [aremove, alookup, hk] using ih

theorem tbLockstep_forkC (k : Nat) : tbLockstep dbForkC hOld hNew k = none := by
  induction k with
  | zero => rfl
  | succ k ih => exact ih

/-- C1.  The lockstep common-ancestor loop of `trimBranch` binds the fetched
parents to shadowed fresh variables, so the loop variables never advance:
on a fully persisted fork whose tips differ at equal height (genesis 1 <-
ancestor 2 <- tips 3 and 4), `trimBranch(old, new)` never returns for any
amount of fuel, so it never reaches the deletion step and never trims the
old branch as the spec describes. -/
theorem trimBranch_fork_diverges (fuel : Nat) :
    trimBranch dbFork hOld hNew fuel = none := by
  cases fuel with
  | zero => rfl
  | succ k =>
    have h1 : trimBranch dbFork hOld hNew (k + 1) =
        match tbLockstep dbForkC hOld hNew k with
        | none => none
        | some (Except.error e, db2) => some (Except.error e, db2)
        | some (Except.ok commonH, db2) => trim db2 commonH hOld (k + 1) := rfl
    rw [h1, tbLockstep_forkC k]

/-- C5.  `GetAncestorByLocation` has its nil guards inverted: when the
starting header is present in the store (hash 5, location (1,1)) it
returns the error finding-header-by-hash instead of walking to the
requested location, and when the starting header is absent (hash 6) it
dereferences the nil header, a panic, instead of returning the error. -/
theorem GetAncestorByLocation_inverted :
    (∃ db1, GetAncestorByLocation dbLoc 5 [1, 1] =
      some (Except.error ("error finding header by hash"), db1)) ∧
    GetAncestorByLocation dbLoc 6 [1, 1] = none :=
  ⟨⟨_, rfl⟩, rfl⟩

/-- C6.  The JSON round-trip always fails: `MarshalJSON` copies the nine
hash/address/bloom arrays into nil slices (they are never make-initialised),
so the encoding carries null for parentHash and the decoder rejects every
encoded header with the missing-parentHash error; `decode(encode(H))` is an
error, never `H`. -/
theorem MarshalJSON_roundtrip_fails (h : Header) :
    Header.UnmarshalJSON (encToDec (Header.MarshalJSON h)) =
      some (Except.error ("missing required field parentHash for Header")) := rfl

/-- C8 counterexample.  On a store-and-cache miss (empty state, hash 99)
`GetTd` returns the length-3 vector of nil big-int pointers, which is not
the vector of zero big integers the claim states. -/
theorem GetTd_miss_not_zero_vector :
    (GetTd {} 99 0).1 = List.replicate 3 (none : Option Int) ∧
    (GetTd {} 99 0).1 ≠ List.replicate 3 (some (0 : Int)) := by
  exact ⟨rfl, by decide⟩

/-- C8 amended.  When neither the td cache nor the store holds a total
difficulty, `GetTd` returns a non-null length-3 vector whose entries are
nil big-int pointers (not zero integers); likewise `GetTdByHash` when the
number of the hash is unknown to the number cache and the store. -/
theorem GetTd_miss_nil_vector (db : DB) (hash n : Nat)
    (h1 : alookup hash db.tdCache = none)
    (h2 : rawdbReadTd db hash n = none)
    (h3 : alookup hash db.numberCache = none)
    (h4 : rawdbReadHeaderNumber db hash = none) :
    (GetTd db hash n).1 = List.replicate 3 none ∧
    (GetTdByHash db hash).1 = List.replicate 3 none := by
  constructor
  · simp [GetTd, h1, h2]
  · simp [GetTdByHash, GetBlockNumber, h3, h4]

theorem GetTd_miss_nil_vector_witness :
    (GetTd {} 99 0).1 = List.replicate 3 none ∧
    (GetTdByHash {} 99).1 = List.replicate 3 none :=
  GetTd_miss_nil_vector {} 99 0 rfl rfl rfl rfl

/-- C9.  The decoder does not require `location`: an object with every other
listed field present and valid but `location` absent decodes successfully;
and a present `timestamp` with the valid value 0 is rejected as missing,
so a present field with a valid value can be rejected. -/
theorem UnmarshalJSON_location_not_required :
    Header.UnmarshalJSON decLocAbsent = some (Except.ok (buildHeader decLocAbsent)) ∧
    Header.UnmarshalJSON decTimeZero =
      some (Except.error ("missing required field timestamp for Header")) := by
  exact ⟨rfl, rfl⟩

/-- C10 counterexample.  A location slice of length 1 whose single byte is
out of the region range does not index out of bounds: `CheckLocationRange`
returns the region range error for the length-1 input (0), refuting the
claim that every input shorter than 2 bytes panics and that Ok-or-error
results occur only for length at least 2. -/
theorem CheckLocationRange_short_returns :
    CheckLocationRange [0] =
      some (Except.error ("the provided location is outside the allowable region range")) ∧
    ([0] : List Nat).length < 2 := by
  exact ⟨rfl, by decide⟩

/-- C10 amended.  `CheckLocationRange` indexes byte 0 before any length
check and indexes byte 1 only when byte 0 passes the region range test:
Ok is returned only for inputs of length at least 2, and the indexing
panics exactly on the empty slice or on a length-1 slice whose byte lies
inside the region range [1, regionMax]. -/
theorem CheckLocationRange_amended (loc : List Nat) :
    (CheckLocationRange loc = some (Except.ok ()) → 2 ≤ loc.length) ∧
    (CheckLocationRange loc = none ↔
      loc = [] ∨ ∃ b, loc = [b] ∧ 1 ≤ b ∧ b ≤ FullerOntology.getD 0 0) := by
  match loc with
  | [] =>
    refine ⟨fun h => by simp [CheckLocationRange] at h, ?_⟩
    simp [CheckLocationRange]
  | [b] =>
    have hred : CheckLocationRange [b] =
        if b < 1 ∨ FullerOntology.getD 0 0 < b then
          some (Except.error ("the provided location is outside the allowable region range"))
        else none := by
      simp [CheckLocationRange]
    by_cases hb : b < 1 ∨ FullerOntology.getD 0 0 < b
    · rw [hred, if_pos hb]
      refine ⟨fun h => by simp at h, ?_⟩
      constructor
      · intro h; exact absurd h (by simp)
      · rintro (h | ⟨c, hc, h1, h2⟩)
        · exact absurd h (by simp)
        · have hbc : b = c := by simpa using hc
          subst hbc
          have h3 : FullerOntology.getD 0 0 = 3 := rfl
          rw [h3] at hb h2
          omega
    · rw [hred, if_neg hb]
      have h3 : FullerOntology.getD 0 0 = 3 := rfl
      rw [h3] at hb
      refine ⟨fun h => by simp at h, ?_⟩
      constructor
      · intro _
        refine Or.inr ⟨b, rfl, by omega, by rw [h3]; omega⟩
      · intro _; rfl
  | a :: b :: t =>
    refine ⟨fun _ => by simp [List.length_cons], ?_⟩
    constructor
    · intro h
      simp only [CheckLocationRange, List.get?] at h
      split at h
      · exact absurd h (by simp)
      · split at h
        · exact absurd h (by simp)
        · exact absurd h (by simp)
    · rintro (h | ⟨c, hc, _, _⟩)
      · exact absurd h (by simp)
      · exact absurd hc (by simp)

theorem CheckLocationRange_amended_witness : CheckLocationRange [2] = none :=
  (CheckLocationRange_amended [2]).2.mpr (Or.inr ⟨2, rfl, by decide, by decide⟩)

/-- C2.  When the executor (`hc.bc.Append`) rejects a block whose header was
not previously known (its hash resolves in no cache), `Append` deletes the
just-written header and returns the executor error, and afterwards
`GetHeaderByHash` of the block hash is nil and the header record is absent
from the store: the store is as if the header had never been written. -/
theorem Append_compensates (M fuel : Nat) (exec : Header → Except String Unit)
    (hc : HC) (b : Header) (e : String)
    (hex : exec b = Except.error e)
    (hnc : alookup b.hash hc.db.numberCache = none) :
    HC.Append hc M exec b fuel =
      some (Except.error e,
        { hc with db := rawdbDeleteHeader (rawdbWriteHeader hc.db b) b.hash b.number64 }) ∧
    (GetHeaderByHash (rawdbDeleteHeader (rawdbWriteHeader hc.db b) b.hash b.number64)
        b.hash).1 = none ∧
    rawdbReadHeader (rawdbDeleteHeader (rawdbWriteHeader hc.db b) b.hash b.number64)
        b.hash b.number64 = none := by
  refine ⟨?_, ?_, ?_⟩
  · simp [HC.Append, hex]
  · have hn : rawdbReadHeaderNumber
        (rawdbDeleteHeader (rawdbWriteHeader hc.db b) b.hash b.number64) b.hash = none := by
      simp [rawdbReadHeaderNumber, rawdbDeleteHeader, alookup_aremove_self]
    have hcache : (rawdbDeleteHeader (rawdbWriteHeader hc.db b) b.hash b.number64).numberCache =
        hc.db.numberCache := rfl
    simp [GetHeaderByHash, GetBlockNumber, hcache, hnc, hn]
  · simp [rawdbReadHeader, rawdbDeleteHeader, alookup_aremove_self]

theorem Append_compensates_witness :
    (GetHeaderByHash (rawdbDeleteHeader (rawdbWriteHeader {} bEx) bEx.hash bEx.number64)
      bEx.hash).1 = none :=
  (Append_compensates 3 0 (fun _ => Except.error ("boom")) { db := {}, heads := [] }
    bEx "boom" rfl rfl).2.1

theorem length_orderedInsertByNumber (a : Header) (l : List Header) :
    (orderedInsertByNumber a l).length = l.length + 1 := by
  induction l with
  | nil => rfl
  | cons b t ih =>
    by_cases hb : b.number64 ≤ a.number64
    · simp [orderedInsertByNumber, hb, ih]
    · simp [orderedInsertByNumber, hb]

theorem length_headsSort (l : List Header) : (headsSort l).length = l.length := by
  induction l with
  | nil => rfl
  | cons a t ih => simp [headsSort, length_orderedInsertByNumber, ih]

/-- C3.  In every engine state reachable from a freshly constructed engine
(empty heads queue) by successful `Append` operations, the heads queue
holds at most M headers: on a full queue `Append` trims the oldest branch
and drops the oldest tip before pushing the new header. -/
theorem Append_heads_bounded (M : Nat) (exec : Header → Except String Unit) (hc : HC)
    (h : AppendReachable M exec hc) : hc.heads.length ≤ M := by
  induction h with
  | fresh db => simp
  | step hc b fuel hc1 hr happ ih =>
    simp only [HC.Append] at happ
    split at happ
    · simp at happ
    · split at happ
      · rename_i hfull
        split at happ
        · cases happ
        · rename_i h0 rest hheads
          split at happ
          · cases happ
          · simp at happ
          · simp only [Option.some.injEq, Prod.mk.injEq, true_and] at happ
            subst happ
            show (headsSort (rest ++ [b])).length ≤ M
            rw [length_headsSort, List.length_append]
            have hlen : hc.heads.length = M := hfull
            rw [hheads] at hlen
            simp only [List.length_cons] at hlen
            simp only [List.length_cons, List.length_nil]
            omega
      · rename_i hfull
        simp only [Option.some.injEq, Prod.mk.injEq, true_and] at happ
        subst happ
        show (headsSort (hc.heads ++ [b])).length ≤ M
        rw [length_headsSort, List.length_append]
        simp only [List.length_cons, List.length_nil]
        omega

theorem Append_heads_bounded_witness :
    ({ db := rawdbWriteHeader {} bEx, heads := [bEx] } : HC).heads.length ≤ 3 :=
  Append_heads_bounded 3 (fun _ => Except.ok ())
    { db := rawdbWriteHeader {} bEx, heads := [bEx] }
    (AppendReachable.step { db := {}, heads := [] } bEx 0
      { db := rawdbWriteHeader {} bEx, heads := [bEx] }
      (AppendReachable.fresh {}) rfl)

theorem GetHeader_none_db (db : DB) (a n : Nat) (db1 : DB)
    (h : GetHeader db a n = (none, db1)) : db1 = db := by
  unfold GetHeader at h
  split at h
  · simp at h
  · split at h
    · simp only [Prod.mk.injEq] at h
      exact h.2.symm
    · simp at h

theorem GetHeader_some_hdrIn (db : DB) (a n : Nat) (hd : Header) (db1 : DB)
    (h : GetHeader db a n = (some hd, db1)) : hdrIn db1 a hd := by
  unfold GetHeader at h
  split at h
  · rename_i h1 hl
    simp only [Prod.mk.injEq, Option.some.injEq] at h
    obtain ⟨h2, h3⟩ := h
    subst h3
    subst h2
    exact Or.inl hl
  · rename_i hmiss
    split at h
    · simp at h
    · rename_i h1 hst
      simp only [Prod.mk.injEq, Option.some.injEq] at h
      obtain ⟨h2, h3⟩ := h
      subst h3
      subst h2
      left
      simp [alookup]

theorem hdrIn_GetHeader_mono (db : DB) (a n : Nat) (x : Nat) (hd : Header)
    (h : hdrIn db x hd) : hdrIn (GetHeader db a n).2 x hd := by
  unfold GetHeader
  split
  · exact h
  · rename_i hmiss
    split
    · exact h
    · rename_i h1 hst
      cases h with
      | inl hcl =>
        left
        show alookup x ((a, h1) :: db.headerCache) = some hd
        by_cases hax : x = a
        · subst hax
          rw [hcl] at hmiss
          cases hmiss
        · simpa [alookup, hax] using hcl
      | inr hst2 => exact Or.inr hst2

theorem hdrIn_ghfhLoop_mono (fuel : Nat) : ∀ (db : DB) (h : Header) (acc : List Nat)
    (x : Nat) (hd : Header), hdrIn db x hd → hdrIn (ghfhLoop db h acc fuel).2 x hd := by
  induction fuel with
  | zero => intro db h acc x hd hin; exact hin
  | succ k ih =>
    intro db h acc x hd hin
    rcases hG : GetHeader db h.parent (u64sub1 h.number64) with ⟨o, db1⟩
    have hm := hdrIn_GetHeader_mono db h.parent (u64sub1 h.number64) x hd hin
    rw [hG] at hm
    cases o with
    | none =>
      have hred : ghfhLoop db h acc (k + 1) = (acc, db1) := by
        unfold ghfhLoop
        rw [hG]
      rw [hred]
      exact hm
    | some h1 =>
      by_cases hz : h1.number64 = 0
      · have hred : ghfhLoop db h acc (k + 1) = (acc ++ [h.parent], db1) := by
          unfold ghfhLoop
          rw [hG]
          show (if h1.number64 = 0 then (acc ++ [h.parent], db1)
            else ghfhLoop db1 h1 (acc ++ [h.parent]) k) = _
          rw [if_pos hz]
        rw [hred]
        exact hm
      · have hred : ghfhLoop db h acc (k + 1) = ghfhLoop db1 h1 (acc ++ [h.parent]) k := by
          conv_lhs => unfold ghfhLoop
          rw [hG]
          show (if h1.number64 = 0 then (acc ++ [h.parent], db1)
            else ghfhLoop db1 h1 (acc ++ [h.parent]) k) = _
          rw [if_neg hz]
        rw [hred]
        exact ih db1 h1 (acc ++ [h.parent]) x hd hm

theorem ghfhLoop_spec (fuel : Nat) : ∀ (db : DB) (h : Header) (acc : List Nat),
    ∃ suf : List Nat,
      (ghfhLoop db h acc fuel).1 = acc ++ suf ∧
      suf.length ≤ fuel ∧
      Chained (ghfhLoop db h acc fuel).2 h suf ∧
      (suf.length = fuel ∨ TermCause (ghfhLoop db h acc fuel).2 h suf) := by
  induction fuel with
  | zero =>
    intro db h acc
    refine ⟨[], by simp [ghfhLoop], by simp, ?_, Or.inl rfl⟩
    simp [ghfhLoop, Chained]
  | succ k ih =>
    intro db h acc
    rcases hG : GetHeader db h.parent (u64sub1 h.number64) with ⟨o, db1⟩
    cases o with
    | none =>
      have hdb : db1 = db := GetHeader_none_db db _ _ db1 hG
      have hred : ghfhLoop db h acc (k + 1) = (acc, db1) := by
        unfold ghfhLoop
        rw [hG]
      refine ⟨[], by rw [hred]; simp, by simp, by rw [hred]; simp [Chained], Or.inr ?_⟩
      rw [hred]
      show (GetHeader db1 h.parent (u64sub1 h.number64)).1 = none
      rw [hdb, hG]
    | some h1 =>
      have hin : hdrIn db1 h.parent h1 := GetHeader_some_hdrIn db _ _ h1 db1 hG
      by_cases hz : h1.number64 = 0
      · have hred : ghfhLoop db h acc (k + 1) = (acc ++ [h.parent], db1) := by
          unfold ghfhLoop
          rw [hG]
          show (if h1.number64 = 0 then (acc ++ [h.parent], db1)
            else ghfhLoop db1 h1 (acc ++ [h.parent]) k) = _
          rw [if_pos hz]
        refine ⟨[h.parent], by rw [hred], by simp, ?_, Or.inr ?_⟩
        · rw [hred]
          exact ⟨rfl, h1, hin, Or.inl rfl, trivial⟩
        · rw [hred]
          exact ⟨h1, hin, Or.inl hz⟩
      · have hred : ghfhLoop db h acc (k + 1) = ghfhLoop db1 h1 (acc ++ [h.parent]) k := by
          conv_lhs => unfold ghfhLoop
          rw [hG]
          show (if h1.number64 = 0 then (acc ++ [h.parent], db1)
            else ghfhLoop db1 h1 (acc ++ [h.parent]) k) = _
          rw [if_neg hz]
        obtain ⟨suf1, e1, e2, e3, e4⟩ := ih db1 h1 (acc ++ [h.parent])
        have hmono : hdrIn (ghfhLoop db1 h1 (acc ++ [h.parent]) k).2 h.parent h1 :=
          hdrIn_ghfhLoop_mono k db1 h1 (acc ++ [h.parent]) h.parent h1 hin
        refine ⟨h.parent :: suf1, ?_, ?_, ?_, ?_⟩
        · rw [hred, e1]
          simp
        · simp only [List.length_cons]
          omega
        · rw [hred]
          exact ⟨rfl, h1, hmono, Or.inr hz, e3⟩
        · cases e4 with
          | inl hlen =>
            left
            simp [hlen]
          | inr htc =>
            right
            rw [hred]
            cases suf1 with
            | nil =>
              exact ⟨h1, hmono, Or.inr htc⟩
            | cons y ys =>
              exact htc

/-- C7.  `GetBlockHashesFromHash(hash, max)` returns at most `max` hashes;
when the origin header is missing it returns the empty list, and otherwise
the returned list is parent-linked from the origin header (each hash is
the tier-c parent hash of the previous header, each has its header in the
resulting state, and only the last may be the genesis), and the walk ends
either because `max` hashes were collected or because the last header is
the genesis or its parent is missing (`TermCause`). -/
theorem GetBlockHashesFromHash_spec (db : DB) (hash max : Nat) :
    (GetBlockHashesFromHash db hash max).1.length ≤ max ∧
    (match (GetHeaderByHash db hash).1 with
     | none => (GetBlockHashesFromHash db hash max).1 = []
     | some h0 =>
       Chained (GetBlockHashesFromHash db hash max).2 h0
         (GetBlockHashesFromHash db hash max).1 ∧
       ((GetBlockHashesFromHash db hash max).1.length = max ∨
        TermCause (GetBlockHashesFromHash db hash max).2 h0
          (GetBlockHashesFromHash db hash max).1)) := by
  rcases hG : GetHeaderByHash db hash with ⟨o, db1⟩
  cases o with
  | none =>
    have hred : GetBlockHashesFromHash db hash max = ([], db1) := by
      unfold GetBlockHashesFromHash
      rw [hG]
    constructor
    · rw [hred]
      simp
    · simp only [hG]
      rw [hred]
  | some h0 =>
    have hred : GetBlockHashesFromHash db hash max = ghfhLoop db1 h0 [] max := by
      unfold GetBlockHashesFromHash
      rw [hG]
    obtain ⟨suf, e1, e2, e3, e4⟩ := ghfhLoop_spec max db1 h0 []
    have e1s : (ghfhLoop db1 h0 [] max).1 = suf := by
      rw [e1]
      simp
    constructor
    · rw [hred, e1s]
      exact e2
    · simp only [hG]
      rw [hred, e1s]
      exact ⟨e3, e4⟩
